import Mathlib

/-!
Verification of the vidos reconciliation engine.

Strings are modelled as `List Char` (`Str`), file contents as a single
`Str`, and line-based file APIs as `splitLines` / `joinLines`, mirroring
`FileSystem.readLines` (split on "\n") and `FileSystem.writeLines`
(join with "\n").  Every definition below is a direct translation of the
corresponding TypeScript in `src/controllers` and `src/util`.
-/

set_option maxHeartbeats 1000000

abbrev Str := List Char

def str (s : String) : Str := s.data

/-- The JavaScript `\s` character class (ASCII part plus the Unicode
space separators), used by the hosts-file regex and by `String.trim`. -/
def jsSpace (c : Char) : Bool :=
  c = ' ' || c = '\t' || c = '\n' || c = '\r' || c = '\x0b' || c = '\x0c' ||
  c.val == 0xa0 || c.val == 0x1680 || (0x2000 ≤ c.val && c.val ≤ 0x200a) ||
  c.val == 0x2028 || c.val == 0x2029 || c.val == 0x202f || c.val == 0x205f ||
  c.val == 0x3000 || c.val == 0xfeff

/-- A character matched by `[^#\s]` in `HOST_ENTRY_REGEX`. -/
def tokenChar (c : Char) : Bool := !(jsSpace c) && !(c = '#')

/-- A JavaScript line terminator: the characters NOT matched by `.`
(LF, CR, U+2028, U+2029). -/
def lineTerminator (c : Char) : Bool :=
  c = '\n' || c = '\r' || c.val == 0x2028 || c.val == 0x2029

/-- JavaScript `String.prototype.trim`. -/
def jsTrim (l : Str) : Str :=
  ((l.dropWhile jsSpace).reverse.dropWhile jsSpace).reverse

/-- `HostEntry` from `src/controllers/hosts.ts`. -/
structure HostEntry where
  ip : Str
  name : Str
deriving DecidableEq, Repr

/-- `HostEntry.toString`: `` `\n${this.ip} ${this.name} # vidos`.trim() ``. -/
def hostEntryToString (h : HostEntry) : Str :=
  jsTrim ('\n' :: (h.ip ++ ' ' :: (h.name ++ str " # vidos")))

/-- `HostEntry.fromString`, i.e. matching the line against
`HOST_ENTRY_REGEX = (?<address>^[^#\s]+) (?<hostname>[^#\s]+)(?:\s*#\s*(?<comment>.+))?`
and requiring the captured comment to equal the signature `"vidos"`.
The regex's greedy runs `[^#\s]+` are `takeWhile tokenChar`; the optional
comment group matches exactly when, after the hostname run, skipping
whitespace (`\s` crosses CR and the other terminators) reaches `#`.  The
comment capture `(.+)` then starts after the maximal whitespace run and,
since `.` matches no line terminator, extends to the next LF/CR/U+2028/
U+2029 (or the end): the capture equals the signature iff, after skipping
whitespace, the terminator-bounded segment is exactly "vidos".  (The
backtracking case where everything after `#` is whitespace can only
capture a whitespace character, which never equals "vidos", so it is
folded into the failure branch.) -/
def hostFromLine (l : Str) : Option HostEntry :=
  match l.dropWhile tokenChar with
  | [] => none
  | c :: r2 =>
    if c = ' ' then
      if l.takeWhile tokenChar = [] then none
      else if r2.takeWhile tokenChar = [] then none
      else
        match (r2.dropWhile tokenChar).dropWhile jsSpace with
        | [] => none
        | c2 :: r5 =>
          if c2 = '#' then
            if (r5.dropWhile jsSpace).takeWhile (fun c3 => !(lineTerminator c3)) = str "vidos" then
              some ⟨l.takeWhile tokenChar, r2.takeWhile tokenChar⟩
            else none
          else none
    else none

/-- `DomainStatus` from the domain model. -/
inductive DomainStatus where
  | INACTIVE
  | ACTIVE
deriving DecidableEq, Repr

/-- JavaScript `destination.replace(":", "$")` (first occurrence only). -/
def replaceFirstColon : Str → Str
  | [] => []
  | c :: rest => if c = ':' then '$' :: rest else c :: replaceFirstColon rest

/-- The `Domain` value: `source`, `destination`, mutable `status`. -/
structure Domain where
  source : Str
  destination : Str
  status : DomainStatus
deriving DecidableEq, Repr

/-- The derived `file_name` computed in the `Domain` constructor:
`` `${source}-${destination.replace(":", "$")}.conf` ``. -/
def Domain.file_name (d : Domain) : Str :=
  d.source ++ '-' :: (replaceFirstColon d.destination ++ str ".conf")

/-- The `Domain` constructor with an explicit status argument.  The
constructor body performs no validation of its arguments. -/
def Domain.make (source destination : Str) (status : DomainStatus) : Domain :=
  ⟨source, destination, status⟩

/-- The `Domain` constructor with the status argument omitted, in which
case it defaults to `DomainStatus.ACTIVE`. -/
def Domain.makeDefault (source destination : Str) : Domain :=
  Domain.make source destination DomainStatus.ACTIVE

/-- `removePortFromIp` from `src/util`: substring before the first `:`,
or the whole string when there is none. -/
def removePortFromIp (ip : Str) : Str :=
  ip.takeWhile (fun c => !(c = ':'))

/-- `HostEntry.fromDomain`. -/
def HostEntry.fromDomain (d : Domain) : HostEntry :=
  ⟨removePortFromIp d.destination, d.source⟩

/-- `arrayContains` from `src/util`: `arr.some(item => isEqual(item, target))`. -/
def arrayContains [DecidableEq α] (arr : List α) (target : α) : Bool :=
  arr.any (fun x => decide (x = target))

/-- JavaScript `content.split("\n")` (note `"".split("\n") = [""]`). -/
def splitLines : Str → List Str
  | [] => [[]]
  | c :: rest =>
    if c = '\n' then [] :: splitLines rest
    else
      match splitLines rest with
      | l :: ls => (c :: l) :: ls
      | [] => [[c]]

/-- JavaScript `lines.join("\n")`. -/
def joinLines : List Str → Str
  | [] => []
  | [l] => l
  | l :: ls => l ++ '\n' :: joinLines ls

/-- The active-domain host entries computed at the top of `Hosts.update`. -/
def activeHostEntries (domains : List Domain) : List HostEntry :=
  (domains.filter (fun d => decide (d.status = DomainStatus.ACTIVE))).map HostEntry.fromDomain

/-- `Hosts.readHostsFile` given the file's lines: parse each line,
keep the non-null results. -/
def readHostEntries (lines : List Str) : List HostEntry :=
  lines.filterMap hostFromLine

structure HostChanges where
  added : List HostEntry
  removed : List HostEntry
deriving DecidableEq, Repr

/-- `entriesToRemove` in `Hosts.update`: parsed entries not derived from
an ACTIVE domain. -/
def entriesToRemove (domains : List Domain) (lines : List Str) : List HostEntry :=
  (readHostEntries lines).filter (fun h => !(arrayContains (activeHostEntries domains) h))

/-- `entriesToAdd` in `Hosts.update`: active entries not present in the file. -/
def entriesToAdd (domains : List Domain) (lines : List Str) : List HostEntry :=
  (activeHostEntries domains).filter (fun h => !(arrayContains (readHostEntries lines) h))

/-- The line filter in `Hosts.update`: drop exactly the lines whose parse
is in `entriesToRemove`. -/
def keptLines (domains : List Domain) (lines : List Str) : List Str :=
  lines.filter (fun line =>
    match hostFromLine line with
    | some h => !(arrayContains (entriesToRemove domains lines) h)
    | none => true)

/-- The pure core of `Hosts.update`: from the config's domains and the
hosts file's lines, compute the rewritten lines and the reported diff. -/
def hostsUpdateLines (domains : List Domain) (lines : List Str) : List Str × HostChanges :=
  (keptLines domains lines ++ (entriesToAdd domains lines).map hostEntryToString,
    ⟨entriesToAdd domains lines, entriesToRemove domains lines⟩)

/-- `Hosts.update` at the file-content level: read lines, rewrite via
`writeLines` (join with newlines), report the diff. -/
def hostsUpdate (domains : List Domain) (content : Str) : Str × HostChanges :=
  let r := hostsUpdateLines domains (splitLines content)
  (joinLines r.1, r.2)

/-- `Hosts.add`: no-op returning false when a structurally equal entry
already exists, otherwise append `"\n" + host.toString()` to the file. -/
def hostsAdd (host : HostEntry) (content : Str) : Bool × Str :=
  if arrayContains (readHostEntries (splitLines content)) host then (false, content)
  else (true, content ++ '\n' :: hostEntryToString host)

/-- The pure core of `Hosts.remove`: guard on existence, then keep every
line whose parse is not structurally equal to the target. -/
def hostsRemoveLines (host : HostEntry) (lines : List Str) : Bool × List Str :=
  if !(arrayContains (readHostEntries lines) host) then (false, lines)
  else (true, lines.filter (fun line => !(decide (hostFromLine line = some host))))

/-- `Hosts.remove` at the file-content level. -/
def hostsRemove (host : HostEntry) (content : Str) : Bool × Str :=
  let r := hostsRemoveLines host (splitLines content)
  (r.1, joinLines r.2)

/-- `startsWith(line, "#")`. -/
def startsWithHash : Str → Bool
  | [] => false
  | c :: _ => decide (c = '#')

/-- lodash `trimStart(line, "#")`: removes every leading `#`. -/
def trimStartHash (line : Str) : Str :=
  line.dropWhile (fun c => decide (c = '#'))

/-- `Nginx.disableDomain` on the file's lines: no-op returning false when
every line is already comment-prefixed, otherwise prefix every line with
`#` and rewrite, returning true. -/
def nginxDisableDomain (file_data : List Str) : Bool × List Str :=
  if file_data.all startsWithHash then (false, file_data)
  else (true, file_data.map (fun line => '#' :: line))

/-- `Nginx.enableDomain` on the file's lines: no-op returning false when
not every line is comment-prefixed, otherwise strip all leading `#`
characters from every line (lodash `trimStart(line, "#")`) and rewrite,
returning true. -/
def nginxEnableDomain (file_data : List Str) : Bool × List Str :=
  if !(file_data.all startsWithHash) then (false, file_data)
  else (true, file_data.map trimStartHash)

def COMMON_CONFIG_FILE : Str := str "local-domains-common.conf"

inductive NginxUpdateResult where
  | changes (added removed : List Str)
  | flag (b : Bool)
deriving DecidableEq, Repr

/-- The boolean result of `enableDomain(d)` inside `updateDomainStatuses`:
true exactly when every line of the domain's file was comment-prefixed
(the file is then rewritten, flipping it to enabled). -/
def enableResult (fileLines : Str → List Str) (d : Domain) : Bool :=
  (fileLines d.file_name).all startsWithHash

/-- The boolean result of `disableDomain(d)` inside `updateDomainStatuses`. -/
def disableResult (fileLines : Str → List Str) (d : Domain) : Bool :=
  !((fileLines d.file_name).all startsWithHash)

/-- The ordered results of `updateDomainStatuses()`: enable results for
the ACTIVE partition, then disable results for the INACTIVE partition. -/
def statusResults (domains : List Domain) (fileLines : Str → List Str) : List Bool :=
  (domains.filter (fun d => decide (d.status = DomainStatus.ACTIVE))).map (enableResult fileLines) ++
  (domains.filter (fun d => !(decide (d.status = DomainStatus.ACTIVE)))).map (disableResult fileLines)

/-- `listFiles(domains_folder, [COMMON_CONFIG_FILE])`: the directory
listing with the common settings file excluded (lodash `difference`). -/
def managedFiles (listing : List Str) : List Str :=
  listing.filter (fun f => !(arrayContains [COMMON_CONFIG_FILE] f))

/-- `invalid_files` in `Nginx.update`: listed files matching no current
domain's `file_name`. -/
def invalidFiles (domains : List Domain) (listing : List Str) : List Str :=
  (managedFiles listing).filter (fun f => !(arrayContains (domains.map Domain.file_name) f))

/-- `valid_files` in `Nginx.update`. -/
def validFiles (domains : List Domain) (listing : List Str) : List Str :=
  (managedFiles listing).filter (fun f => arrayContains (domains.map Domain.file_name) f)

/-- `missing_files` in `Nginx.update`: `difference(domains, valid_files)`. -/
def missingFiles (domains : List Domain) (listing : List Str) : List Str :=
  (domains.map Domain.file_name).filter (fun n => !(arrayContains (validFiles domains listing) n))

/-- The pure core of `Nginx.update` (the dual-return version): `listing`
is the managed directory's contents after `addAllDomains`, `fileLines`
gives each file's lines as read by the status tasks.  Returns the update
result together with the list of files passed to `removeInvalidFiles`
(i.e. the files deleted).  `statusChanged` is the destructured FIRST
element of the `Promise.all` array; when `statusResults` is empty that
element is a `delete` result (`undefined`), and `undefined == true` is
false, matching `head? = some true` on the empty list. -/
def nginxUpdate (domains : List Domain) (listing : List Str) (fileLines : Str → List Str) :
    NginxUpdateResult × List Str :=
  (if missingFiles domains listing ≠ [] ∨ invalidFiles domains listing ≠ [] then
      NginxUpdateResult.changes (missingFiles domains listing) (invalidFiles domains listing)
    else
      NginxUpdateResult.flag (decide ((statusResults domains fileLines).head? = some true)),
    invalidFiles domains listing)

/-- Association-list lookup modelling `files.exists` / file contents of
the managed directory, keyed by file name. -/
def fsLookup (dir : List (Str × Str)) (key : Str) : Option Str :=
  match dir with
  | [] => none
  | (k, v) :: rest => if k = key then some v else fsLookup rest key

/-- `Nginx.domainServerFileContent` after `dedent`: the generated server
block written by `addDomain`. -/
def domainServerFileContent (d : Domain) : Str :=
  str "server \x7b\n  listen 80;\n  server_name " ++
  (d.source ++
    (str ";\n  location / \x7b\n    proxy_pass http://" ++
      (d.destination ++
        str ";\n    include local-domains/local-domains-common.conf;\n  \x7d\n\x7d")))

/-- `Nginx.addDomain`: never overwrites an existing file. -/
def nginxAddDomain (d : Domain) (dir : List (Str × Str)) : Bool × List (Str × Str) :=
  match fsLookup dir d.file_name with
  | some _ => (false, dir)
  | none => (true, (d.file_name, domainServerFileContent d) :: dir)

/-- The application error taxonomy of `src/util/errors.ts`. -/
inductive AppError where
  | notFound (msg : Str)
  | alreadyExists (msg : Str)
  | ioFailure (msg : Str)
  | validation (msg : Str)
  | network (msg : Str)
  | unknown (msg : Str)
deriving DecidableEq, Repr

/-- A thrown JavaScript value: either an `ApplicationError` or any other
(raw) exception such as a filesystem error or a JSON `SyntaxError`. -/
inductive Thrown where
  | app (e : AppError)
  | raw
deriving DecidableEq, Repr

/-- `tryOrThrow`: rethrow `ApplicationError`s unchanged, replace any
other exception with the supplied error. -/
def tryOrThrow (result : Except Thrown α) (error : AppError) : Except AppError α :=
  match result with
  | .ok a => .ok a
  | .error (.app e) => .error e
  | .error .raw => .error error

/-- One element of the serialized `domains` array; `status` may be
absent (JavaScript `undefined`), in which case the `Domain`
constructor's default applies. -/
structure DomainObj where
  source : Str
  destination : Str
  status : Option DomainStatus
deriving DecidableEq, Repr

/-- The parsed configuration document; `settings` is kept abstract as a
serialized blob since only `domains` matters here. -/
structure ConfigJson where
  domains : List DomainObj
  settings : Str
deriving DecidableEq, Repr

/-- `Domain.fromObject(obj) = new Domain(obj.source, obj.destination, obj.status)`. -/
def Domain.fromObject (o : DomainObj) : Domain :=
  Domain.make o.source o.destination (o.status.getD DomainStatus.ACTIVE)

/-- The in-memory configuration store built by `Config.fromJSON`. -/
structure ConfigStore where
  domains : List Domain
  settings : Str
deriving DecidableEq, Repr

/-- `Config.fromJSON` after a successful `JSON.parse`. -/
def configFromJSON (j : ConfigJson) : ConfigStore :=
  ⟨j.domains.map Domain.fromObject, j.settings⟩

/-- The body of `Config.load`'s `tryOrThrow` lambda: branch on file
existence; a failing read or a failing `JSON.parse` raises a raw
(non-application) exception; a missing document raises `NotFoundError`. -/
def configLoadBody (exists_ : Bool) (readResult : Except Unit Str)
    (parseJson : Str → Option ConfigJson) : Except Thrown ConfigStore :=
  if exists_ then
    match readResult with
    | .error _ => .error .raw
    | .ok data =>
      match parseJson data with
      | none => .error .raw
      | some j => .ok (configFromJSON j)
  else
    .error (.app (.notFound (str "Missing local config. Please run `init` to create one.")))

/-- `Config.load`: the body wrapped in
`tryOrThrow(..., new IOError("Failed to load the local config file"))`. -/
def configLoad (exists_ : Bool) (readResult : Except Unit Str)
    (parseJson : Str → Option ConfigJson) : Except AppError ConfigStore :=
  tryOrThrow (configLoadBody exists_ readResult parseJson)
    (.ioFailure (str "Failed to load the local config file"))

/-- An entry whose serialized line round-trips through the hosts-file
parser: nonempty ip and name made of characters that are neither
whitespace nor `#`. -/
def goodEntry (h : HostEntry) : Bool :=
  !(h.ip.isEmpty) && !(h.name.isEmpty) && h.ip.all tokenChar && h.name.all tokenChar

/-- The foreign (unmanaged) lines of a hosts file. -/
def foreignLines (lines : List Str) : List Str :=
  lines.filter (fun l => (hostFromLine l).isNone)

/-! ### Helper lemmas -/

theorem arrayContains_iff [DecidableEq α] (arr : List α) (t : α) :
    arrayContains arr t = true ↔ t ∈ arr := by
  simp [arrayContains, List.any_eq_true]

theorem arrayContains_false_iff [DecidableEq α] (arr : List α) (t : α) :
    arrayContains arr t = false ↔ t ∉ arr := by
  rw [← Bool.not_eq_true, not_iff_not]
  exact arrayContains_iff arr t

theorem tokenChar_not_space {c : Char} (h : tokenChar c = true) : jsSpace c = false := by
  unfold tokenChar at h
  cases hs : jsSpace c with
  | false => rfl
  | true => rw [hs] at h; simp at h

theorem tokenChar_ne_newline {c : Char} (h : tokenChar c = true) : c ≠ '\n' := by
  intro hc
  subst hc
  have := tokenChar_not_space h
  simp [jsSpace] at this

theorem all_takeWhile (p : α → Bool) (l : List α) : (l.takeWhile p).all p = true := by
  induction l with
  | nil => rfl
  | cons x xs ih =>
    by_cases hx : p x = true
    · simp [List.takeWhile_cons, hx, ih]
    · simp [List.takeWhile_cons, Bool.eq_false_iff.mpr hx]

theorem takeWhile_append_stop (p : α → Bool) (xs : List α) (y : α) (ys : List α)
    (hxs : ∀ c ∈ xs, p c = true) (hy : p y = false) :
    (xs ++ y :: ys).takeWhile p = xs ∧ (xs ++ y :: ys).dropWhile p = y :: ys := by
  induction xs with
  | nil => simp [List.takeWhile_cons, List.dropWhile_cons, hy]
  | cons x xs ih =>
    have hx : p x = true := hxs x (by simp)
    have ih2 := ih (fun c hc => hxs c (by simp [hc]))
    simp [List.takeWhile_cons, List.dropWhile_cons, hx, ih2.1, ih2.2]

theorem dropWhile_eq_self_of_head (p : α → Bool) (x : α) (xs : List α) (hx : p x = false) :
    (x :: xs).dropWhile p = x :: xs := by
  simp [List.dropWhile_cons, hx]

theorem jsTrim_eq_self (l : Str) (h1 : l.dropWhile jsSpace = l)
    (h2 : l.reverse.dropWhile jsSpace = l.reverse) : jsTrim l = l := by
  unfold jsTrim
  rw [h1, h2, List.reverse_reverse]

/-- Under `goodEntry`, serialization produces the plain single line
`<ip> <name> # vidos` (the leading newline and nothing else is trimmed). -/
theorem hostEntryToString_eq (h : HostEntry) (hg : goodEntry h = true) :
    hostEntryToString h = h.ip ++ ' ' :: (h.name ++ str " # vidos") := by
  obtain ⟨hip, hname, hipall, hnameall⟩ :
      h.ip ≠ [] ∧ h.name ≠ [] ∧ h.ip.all tokenChar = true ∧ h.name.all tokenChar = true := by
    unfold goodEntry at hg
    simp only [Bool.and_eq_true] at hg
    refine ⟨?_, ?_, hg.1.2, hg.2⟩
    · simpa [List.isEmpty_iff] using hg.1.1.1
    · simpa [List.isEmpty_iff] using hg.1.1.2
  set t := h.ip ++ ' ' :: (h.name ++ str " # vidos") with ht
  obtain ⟨i0, ip', hip'⟩ : ∃ i0 ip', h.ip = i0 :: ip' := by
    cases hc : h.ip with
    | nil => exact absurd hc hip
    | cons a b => exact ⟨a, b, rfl⟩
  have hi0 : tokenChar i0 = true := by
    have := hipall
    rw [hip'] at this
    simp [List.all_cons] at this
    exact this.1
  have htcons : t = i0 :: (ip' ++ ' ' :: (h.name ++ str " # vidos")) := by
    rw [ht, hip']; simp
  have hfront : t.dropWhile jsSpace = t := by
    rw [htcons]
    exact dropWhile_eq_self_of_head _ _ _ (tokenChar_not_space hi0)
  have htback : t = (h.ip ++ ' ' :: (h.name ++ str " # vido")) ++ ['s'] := by
    rw [ht]
    simp [str]
  have hback : t.reverse.dropWhile jsSpace = t.reverse := by
    rw [htback, List.reverse_append]
    exact dropWhile_eq_self_of_head _ _ _ (by decide)
  unfold hostEntryToString
  rw [← ht]
  have hdrop : ('\n' :: t).dropWhile jsSpace = t.dropWhile jsSpace := by
    simp [List.dropWhile_cons, show jsSpace '\n' = true from by decide]
  unfold jsTrim
  rw [hdrop, hfront, hback, List.reverse_reverse]


theorem splitLines_nil : splitLines [] = [[]] := rfl

theorem splitLines_cons (c : Char) (rest : Str) :
    splitLines (c :: rest) =
      if c = '\n' then [] :: splitLines rest
      else
        match splitLines rest with
        | l :: ls => (c :: l) :: ls
        | [] => [[c]] := rfl

/-- Round trip: a good entry's serialized line parses back to itself. -/
theorem hostFromLine_hostEntryToString (h : HostEntry) (hg : goodEntry h = true) :
    hostFromLine (hostEntryToString h) = some h := by
  obtain ⟨hip, hname, hipall, hnameall⟩ :
      h.ip ≠ [] ∧ h.name ≠ [] ∧ h.ip.all tokenChar = true ∧ h.name.all tokenChar = true := by
    unfold goodEntry at hg
    simp only [Bool.and_eq_true] at hg
    refine ⟨?_, ?_, hg.1.2, hg.2⟩
    · simpa [List.isEmpty_iff] using hg.1.1.1
    · simpa [List.isEmpty_iff] using hg.1.1.2
  rw [hostEntryToString_eq h hg]
  have hipmem : ∀ c ∈ h.ip, tokenChar c = true := fun c hc => List.all_eq_true.mp hipall c hc
  have hnamemem : ∀ c ∈ h.name, tokenChar c = true := fun c hc => List.all_eq_true.mp hnameall c hc
  have hsp : tokenChar ' ' = false := by decide
  have htail : str " # vidos" = ' ' :: str "# vidos" := by decide
  have h1 := takeWhile_append_stop tokenChar h.ip ' ' (h.name ++ str " # vidos") hipmem hsp
  have h2 := takeWhile_append_stop tokenChar h.name ' ' (str "# vidos") hnamemem hsp
  unfold hostFromLine
  rw [h1.1, h1.2]
  simp only [if_pos rfl, if_neg hip]
  rw [htail, h2.1, h2.2]
  simp only [if_neg hname]
  have hc1 : (' ' :: str "# vidos").dropWhile jsSpace = '#' :: str " vidos" := by decide
  rw [hc1]
  have hc2 : ((str " vidos").dropWhile jsSpace).takeWhile (fun c3 => !(lineTerminator c3)) =
      str "vidos" := by decide
  simp only [if_pos rfl, hc2]
  simp

/-- A good entry's serialized line contains no newline. -/
theorem no_newline_hostEntryToString (h : HostEntry) (hg : goodEntry h = true) :
    '\n' ∉ hostEntryToString h := by
  rw [hostEntryToString_eq h hg]
  intro hmem
  have hipall : h.ip.all tokenChar = true := by
    unfold goodEntry at hg
    simp only [Bool.and_eq_true] at hg
    exact hg.1.2
  have hnameall : h.name.all tokenChar = true := by
    unfold goodEntry at hg
    simp only [Bool.and_eq_true] at hg
    exact hg.2
  rcases List.mem_append.mp hmem with hl | hr
  · exact tokenChar_ne_newline (List.all_eq_true.mp hipall _ hl) rfl
  · rcases List.mem_cons.mp hr with hsp | hr
    · exact absurd hsp (by decide)
    · rcases List.mem_append.mp hr with hn | hs
      · exact tokenChar_ne_newline (List.all_eq_true.mp hnameall _ hn) rfl
      · revert hs
        decide

/-! ### splitLines / joinLines lemmas -/

theorem splitLines_ne_nil (l : Str) : splitLines l ≠ [] := by
  induction l with
  | nil => simp [splitLines_nil]
  | cons c rest ih =>
    rw [splitLines_cons]
    by_cases hc : c = '\n'
    · simp [hc]
    · rw [if_neg hc]
      cases hs : splitLines rest with
      | nil => exact absurd hs ih
      | cons l ls => simp

theorem splitLines_no_newline (l : Str) : ∀ s ∈ splitLines l, '\n' ∉ s := by
  induction l with
  | nil =>
    intro s hs
    rw [splitLines_nil] at hs
    rcases List.mem_singleton.mp hs with rfl
    simp
  | cons c rest ih =>
    intro s hs
    rw [splitLines_cons] at hs
    by_cases hc : c = '\n'
    · rw [if_pos hc] at hs
      rcases List.mem_cons.mp hs with rfl | hs
      · simp
      · exact ih s hs
    · rw [if_neg hc] at hs
      cases hsplit : splitLines rest with
      | nil => exact absurd hsplit (splitLines_ne_nil rest)
      | cons l ls =>
        rw [hsplit] at hs
        rcases List.mem_cons.mp hs with rfl | hs
        · intro hmem
          rcases List.mem_cons.mp hmem with rfl | hmem
          · exact hc rfl
          · exact ih l (by rw [hsplit]; exact List.mem_cons_self l ls) hmem
        · exact ih s (by rw [hsplit]; exact List.mem_cons_of_mem l hs)

theorem splitLines_of_no_newline (l : Str) (h : '\n' ∉ l) : splitLines l = [l] := by
  induction l with
  | nil => rfl
  | cons c rest ih =>
    have hc : ¬(c = '\n') := fun hc => h (by simp [hc])
    have hrest : '\n' ∉ rest := fun hm => h (by simp [hm])
    rw [splitLines_cons, if_neg hc, ih hrest]

theorem splitLines_append (a b : Str) :
    splitLines (a ++ '\n' :: b) = splitLines a ++ splitLines b := by
  induction a with
  | nil =>
    rw [List.nil_append, splitLines_nil, splitLines_cons, if_pos rfl]
    rfl
  | cons c rest ih =>
    show splitLines (c :: (rest ++ '\n' :: b)) = splitLines (c :: rest) ++ splitLines b
    by_cases hc : c = '\n'
    · rw [splitLines_cons, splitLines_cons, if_pos hc, if_pos hc, ih]
      rfl
    · rw [splitLines_cons, splitLines_cons, if_neg hc, if_neg hc, ih]
      cases hs : splitLines rest with
      | nil => exact absurd hs (splitLines_ne_nil rest)
      | cons l ls => simp

theorem joinLines_cons (l : Str) (ls : List Str) (h : ls ≠ []) :
    joinLines (l :: ls) = l ++ '\n' :: joinLines ls := by
  cases ls with
  | nil => exact absurd rfl h
  | cons x xs => rfl

theorem splitLines_joinLines (ls : List Str) (hne : ls ≠ [])
    (hnl : ∀ l ∈ ls, '\n' ∉ l) : splitLines (joinLines ls) = ls := by
  induction ls with
  | nil => exact absurd rfl hne
  | cons l rest ih =>
    cases rest with
    | nil =>
      show splitLines (joinLines [l]) = [l]
      exact splitLines_of_no_newline l (hnl l (by simp))
    | cons x xs =>
      rw [joinLines_cons l (x :: xs) (by simp)]
      rw [splitLines_append]
      rw [ih (by simp) (fun s hs => hnl s (by simp [hs]))]
      rw [splitLines_of_no_newline l (hnl l (by simp))]
      rfl

theorem filterMap_eq_self (f : α → Option α) (l : List α) (h : ∀ a ∈ l, f a = some a) :
    l.filterMap f = l := by
  induction l with
  | nil => rfl
  | cons x xs ih =>
    rw [List.filterMap_cons, h x (by simp)]
    rw [ih (fun a ha => h a (by simp [ha]))]

theorem readHostEntries_map_toString (E : List HostEntry)
    (h : ∀ e ∈ E, goodEntry e = true) :
    readHostEntries (E.map hostEntryToString) = E := by
  unfold readHostEntries
  rw [List.filterMap_map]
  exact filterMap_eq_self _ E (fun e he => hostFromLine_hostEntryToString e (h e he))

/-- After one `Hosts.update` pass, the managed entries of the rewritten
lines are exactly (as a set) the active-domain entries. -/
theorem hostsUpdateLines_entries (domains : List Domain) (lines : List Str)
    (hgood : ∀ e ∈ activeHostEntries domains, goodEntry e = true) :
    (∀ h ∈ readHostEntries (hostsUpdateLines domains lines).1, h ∈ activeHostEntries domains) ∧
    (∀ e ∈ activeHostEntries domains, e ∈ readHostEntries (hostsUpdateLines domains lines).1) := by
  have hD1sub : ∀ e ∈ entriesToAdd domains lines, e ∈ activeHostEntries domains := by
    intro e he
    exact (List.mem_filter.mp he).1
  have hsplit : readHostEntries (hostsUpdateLines domains lines).1 =
      readHostEntries (keptLines domains lines) ++ entriesToAdd domains lines := by
    show readHostEntries (keptLines domains lines ++
        (entriesToAdd domains lines).map hostEntryToString) = _
    unfold readHostEntries
    rw [List.filterMap_append]
    rw [show ((entriesToAdd domains lines).map hostEntryToString).filterMap hostFromLine =
        entriesToAdd domains lines from
      readHostEntries_map_toString _ (fun e he => hgood e (hD1sub e he))]
  constructor
  · intro h hmem
    rw [hsplit] at hmem
    rcases List.mem_append.mp hmem with hk | ha
    · obtain ⟨l, hlk, hparse⟩ := List.mem_filterMap.mp hk
      obtain ⟨hl, hpred⟩ := List.mem_filter.mp hlk
      rw [hparse] at hpred
      have hnotR : h ∉ entriesToRemove domains lines := by
        intro hR
        rw [Bool.not_eq_true'] at hpred
        exact absurd ((arrayContains_iff _ _).mpr hR) (by simp [hpred])
      have hH1 : h ∈ readHostEntries lines := List.mem_filterMap.mpr ⟨l, hl, hparse⟩
      by_contra hnA
      exact hnotR (List.mem_filter.mpr ⟨hH1, by
        rw [Bool.not_eq_true']
        exact (arrayContains_false_iff _ _).mpr hnA⟩)
    · exact hD1sub h ha
  · intro e he
    rw [hsplit]
    by_cases heH1 : e ∈ readHostEntries lines
    · refine List.mem_append.mpr (Or.inl ?_)
      obtain ⟨l, hl, hparse⟩ := List.mem_filterMap.mp heH1
      refine List.mem_filterMap.mpr ⟨l, ?_, hparse⟩
      refine List.mem_filter.mpr ⟨hl, ?_⟩
      rw [hparse]
      show (!(arrayContains (entriesToRemove domains lines) e)) = true
      have : e ∉ entriesToRemove domains lines := by
        intro hR
        have := (List.mem_filter.mp hR).2
        rw [Bool.not_eq_true'] at this
        exact absurd ((arrayContains_iff _ _).mpr he) (by simp [this])
      simpa using (arrayContains_false_iff _ _).mpr this
    · refine List.mem_append.mpr (Or.inr ?_)
      refine List.mem_filter.mpr ⟨he, ?_⟩
      simpa using (arrayContains_false_iff _ _).mpr heH1

theorem hostFromLine_nil : hostFromLine [] = none := rfl

/-! ### Claim theorems -/

/-- C1 (amended): for every configuration whose ACTIVE domains derive
host entries with nonempty ip and hostname free of whitespace and `#`
(true of any real hostname and `ip:port` pair), and any initial
hosts-file content, the second of two consecutive `Hosts.update` calls
reports an empty diff: the first pass leaves the file's managed entries
exactly equal (as a set) to the active entries, so nothing is added or
removed on the second pass. -/
theorem hostsUpdate_twice_empty_diff (domains : List Domain) (content : Str)
    (hgood : ∀ d ∈ domains, d.status = DomainStatus.ACTIVE →
      goodEntry (HostEntry.fromDomain d) = true) :
    (hostsUpdate domains (hostsUpdate domains content).1).2 = ⟨[], []⟩ := by
  have hgoodA : ∀ e ∈ activeHostEntries domains, goodEntry e = true := by
    intro e he
    obtain ⟨d, hd, rfl⟩ := List.mem_map.mp he
    obtain ⟨hdmem, hdstat⟩ := List.mem_filter.mp hd
    exact hgood d hdmem (of_decide_eq_true hdstat)
  have hmain := hostsUpdateLines_entries domains (splitLines content) hgoodA
  set NL := (hostsUpdateLines domains (splitLines content)).1 with hNL
  have hNLeq : NL = keptLines domains (splitLines content) ++
      (entriesToAdd domains (splitLines content)).map hostEntryToString := rfl
  have hnonl : ∀ s ∈ NL, '\n' ∉ s := by
    intro s hs
    rw [hNLeq] at hs
    rcases List.mem_append.mp hs with hk | hm
    · have hk2 : s ∈ (splitLines content).filter _ := hk
      exact splitLines_no_newline content s (List.mem_filter.mp hk2).1
    · obtain ⟨e, he, rfl⟩ := List.mem_map.mp hm
      have he2 : e ∈ (activeHostEntries domains).filter _ := he
      exact no_newline_hostEntryToString e (hgoodA e (List.mem_filter.mp he2).1)
  have h2 : (hostsUpdate domains (hostsUpdate domains content).1).2 =
      ⟨entriesToAdd domains (splitLines (joinLines NL)),
        entriesToRemove domains (splitLines (joinLines NL))⟩ := rfl
  by_cases hnil : NL = []
  · rw [h2, hnil]
    have hAnil : activeHostEntries domains = [] := by
      rw [List.eq_nil_iff_forall_not_mem]
      intro e he
      have hmem := hmain.2 e he
      rw [hnil] at hmem
      simp [readHostEntries] at hmem
    have hadd : entriesToAdd domains (splitLines (joinLines ([] : List Str))) = [] := by
      unfold entriesToAdd
      rw [hAnil]
      rfl
    have hrem : entriesToRemove domains (splitLines (joinLines ([] : List Str))) = [] := rfl
    rw [hadd, hrem]
  · have hsplit2 : splitLines (joinLines NL) = NL := splitLines_joinLines NL hnil hnonl
    rw [h2, hsplit2]
    have hadd : entriesToAdd domains NL = [] := by
      unfold entriesToAdd
      rw [List.filter_eq_nil_iff]
      intro e he
      have hm := hmain.2 e he
      simp only [Bool.not_eq_true', arrayContains_false_iff]
      exact fun hc => hc hm
    have hrem : entriesToRemove domains NL = [] := by
      unfold entriesToRemove
      rw [List.filter_eq_nil_iff]
      intro h hh
      have hm := hmain.1 h hh
      simp only [Bool.not_eq_true', arrayContains_false_iff]
      exact fun hc => hc hm
    rw [hadd, hrem]

/-- Witness for C1: a concrete well-formed configuration and hosts file
on which the second update reports an empty diff. -/
theorem hostsUpdate_twice_empty_diff_witness :
    (hostsUpdate [Domain.make (str "api.example.com") (str "127.0.0.1:5001") DomainStatus.ACTIVE]
      (hostsUpdate [Domain.make (str "api.example.com") (str "127.0.0.1:5001") DomainStatus.ACTIVE]
        (str "# my comment\n127.0.0.1 old.example.com # vidos")).1).2 = ⟨[], []⟩ :=
  hostsUpdate_twice_empty_diff
    [Domain.make (str "api.example.com") (str "127.0.0.1:5001") DomainStatus.ACTIVE]
    (str "# my comment\n127.0.0.1 old.example.com # vidos")
    (by decide)

/-- Counterexample to C1 as stated: with a domain whose source contains a
space, the serialized hosts line does not parse back as a managed entry,
so the second update's diff re-adds it — the claim's universal
quantification over all domain lists fails. -/
theorem hostsUpdate_twice_empty_diff_cex :
    ¬ ((hostsUpdate [Domain.make (str "foo bar") (str "1.2.3.4:80") DomainStatus.ACTIVE]
        (hostsUpdate [Domain.make (str "foo bar") (str "1.2.3.4:80") DomainStatus.ACTIVE]
          (str "")).1).2 = ⟨[], []⟩) := by
  decide

theorem goodEntry_active (domains : List Domain)
    (hgood : ∀ d ∈ domains, d.status = DomainStatus.ACTIVE →
      goodEntry (HostEntry.fromDomain d) = true) :
    ∀ e ∈ activeHostEntries domains, goodEntry e = true := by
  intro e he
  obtain ⟨d, hd, rfl⟩ := List.mem_map.mp he
  obtain ⟨hdmem, hdstat⟩ := List.mem_filter.mp hd
  exact hgood d hdmem (of_decide_eq_true hdstat)

theorem foreignLines_filter (lines : List Str) (q : Str → Bool)
    (hq : ∀ l, hostFromLine l = none → q l = true) :
    foreignLines (lines.filter q) = foreignLines lines := by
  induction lines with
  | nil => rfl
  | cons x xs ih =>
    unfold foreignLines at ih ⊢
    by_cases hx : (hostFromLine x).isNone = true
    · have hqx : q x = true := hq x (Option.isNone_iff_eq_none.mp hx)
      rw [List.filter_cons, if_pos hqx, List.filter_cons, if_pos hx,
        List.filter_cons, if_pos hx, ih]
    · have hx2 : ((hostFromLine x).isNone : Bool) = false := Bool.not_eq_true _ ▸ by
        simpa using hx
      rw [List.filter_cons]
      by_cases hqx : q x = true
      · rw [if_pos hqx, List.filter_cons, if_neg (by simp [hx2]), List.filter_cons,
          if_neg (by simp [hx2]), ih]
      · rw [if_neg hqx, List.filter_cons, if_neg (by simp [hx2]), ih]

theorem foreignLines_append (a b : List Str) :
    foreignLines (a ++ b) = foreignLines a ++ foreignLines b :=
  List.filter_append a b

/-- C2 (amended): `remove` preserves the foreign lines of the hosts file
exactly (verbatim, in order, nothing else removed), unconditionally;
`add` and `update` do so as well provided every entry they append is
well-formed (nonempty ip/hostname with no whitespace or `#`) — such
appended lines are managed, so the foreign sublist is untouched. -/
theorem hosts_ops_preserve_foreign (content : Str) (lines : List Str) (host : HostEntry)
    (domains : List Domain) :
    foreignLines (hostsRemoveLines host lines).2 = foreignLines lines
    ∧ (goodEntry host = true →
        foreignLines (splitLines (hostsAdd host content).2) = foreignLines (splitLines content))
    ∧ ((∀ d ∈ domains, d.status = DomainStatus.ACTIVE →
          goodEntry (HostEntry.fromDomain d) = true) →
        foreignLines (hostsUpdateLines domains lines).1 = foreignLines lines) := by
  refine ⟨?_, ?_, ?_⟩
  · unfold hostsRemoveLines
    split
    · rfl
    · exact foreignLines_filter lines _ (fun l hl => by simp [hl])
  · intro hg
    unfold hostsAdd
    split
    · rfl
    · show foreignLines (splitLines (content ++ '\n' :: hostEntryToString host)) = _
      rw [splitLines_append,
        splitLines_of_no_newline _ (no_newline_hostEntryToString host hg),
        foreignLines_append]
      have hmanaged : foreignLines [hostEntryToString host] = [] := by
        unfold foreignLines
        rw [List.filter_cons, if_neg (by simp [hostFromLine_hostEntryToString host hg])]
        rfl
      rw [hmanaged, List.append_nil]
  · intro hgood
    have hgoodA := goodEntry_active domains hgood
    show foreignLines (keptLines domains lines ++
      (entriesToAdd domains lines).map hostEntryToString) = _
    rw [foreignLines_append]
    have hkept : foreignLines (keptLines domains lines) = foreignLines lines := by
      unfold keptLines
      refine foreignLines_filter lines _ (fun l hl => ?_)
      rw [hl]
    have hadded : foreignLines ((entriesToAdd domains lines).map hostEntryToString) = [] := by
      unfold foreignLines
      rw [List.filter_eq_nil_iff]
      intro t ht
      obtain ⟨e, he, rfl⟩ := List.mem_map.mp ht
      have hge : goodEntry e = true := hgoodA e (List.mem_filter.mp he).1
      simp [hostFromLine_hostEntryToString e hge]
    rw [hkept, hadded, List.append_nil]

/-- Witness for C2: concrete remove/add/update calls whose foreign lines
are preserved. -/
theorem hosts_ops_preserve_foreign_witness :
    foreignLines (hostsRemoveLines ⟨str "9.9.9.9", str "w"⟩ [str "x"]).2 = foreignLines [str "x"]
    ∧ foreignLines (splitLines (hostsAdd ⟨str "9.9.9.9", str "w"⟩ (str "x")).2) =
        foreignLines (splitLines (str "x"))
    ∧ foreignLines (hostsUpdateLines
        [Domain.make (str "a") (str "1.2.3.4:80") DomainStatus.ACTIVE] [str "x"]).1 =
        foreignLines [str "x"] := by
  have h := hosts_ops_preserve_foreign (str "x") [str "x"] ⟨str "9.9.9.9", str "w"⟩
    [Domain.make (str "a") (str "1.2.3.4:80") DomainStatus.ACTIVE]
  exact ⟨h.1, h.2.1 (by decide), h.2.2 (by decide)⟩

/-- Counterexample to C2 as stated: `Hosts.add` called with an entry
whose hostname contains a space appends a line that does NOT parse as a
managed entry, i.e. a foreign line is appended — "only managed lines are
ever appended" fails for arbitrary arguments. -/
theorem hosts_ops_preserve_foreign_cex :
    (hostsAdd ⟨str "1.2.3.4", str "foo bar"⟩ (str "")).1 = true
    ∧ foreignLines (splitLines (hostsAdd ⟨str "1.2.3.4", str "foo bar"⟩ (str "")).2) ≠
        foreignLines (splitLines (str ""))
    ∧ foreignLines (splitLines (hostsAdd ⟨str "1.2.3.4", str "foo bar"⟩ (str "")).2) =
        [[], str "1.2.3.4 foo bar # vidos"] := by
  decide

theorem trimStartHash_cons_of_not_hash (l : Str) (hl : startsWithHash l = false) :
    trimStartHash ('#' :: l) = l := by
  unfold trimStartHash
  rw [List.dropWhile_cons, if_pos (by decide)]
  cases l with
  | nil => rfl
  | cons c cs =>
    have hc : decide (c = '#') = false := hl
    rw [List.dropWhile_cons, if_neg (by simp [hc])]

/-- C3 (amended): on a proxy domain file mixing comment-prefixed and
non-prefixed lines, `enableDomain` is indeed a no-op returning false (its
guard requires every line to be prefixed), but `disableDomain` is NOT a
no-op: its guard only refuses when every line is already prefixed, so on
a mixed file it prefixes every line and returns true. -/
theorem nginx_mixed_file (lines : List Str)
    (_hc : ∃ l ∈ lines, startsWithHash l = true)
    (hu : ∃ l ∈ lines, startsWithHash l = false) :
    nginxEnableDomain lines = (false, lines)
    ∧ nginxDisableDomain lines = (true, lines.map (fun line => '#' :: line)) := by
  obtain ⟨u, hu1, hu2⟩ := hu
  have hall : lines.all startsWithHash = false := by
    rw [Bool.eq_false_iff]
    intro hall
    rw [List.all_eq_true] at hall
    rw [hall u hu1] at hu2
    cases hu2
  constructor
  · unfold nginxEnableDomain
    rw [hall]
    rfl
  · unfold nginxDisableDomain
    rw [hall]
    rfl

/-- Witness for C3: a concrete mixed file. -/
theorem nginx_mixed_file_witness :
    nginxEnableDomain [str "#a", str "b"] = (false, [str "#a", str "b"])
    ∧ nginxDisableDomain [str "#a", str "b"] = (true, [str "##a", str "#b"]) := by
  have h := nginx_mixed_file [str "#a", str "b"] (by decide) (by decide)
  exact ⟨h.1, h.2⟩

/-- Counterexample to C3 as stated: on the mixed file `["#a", "b"]`,
`disableDomain` is not a no-op returning false — it returns true and
rewrites every line with an extra `#`. -/
theorem nginx_mixed_file_cex :
    nginxDisableDomain [str "#a", str "b"] = (true, [str "##a", str "#b"])
    ∧ ¬ (nginxDisableDomain [str "#a", str "b"] = (false, [str "#a", str "b"])) := by
  decide

/-- C4 (amended): when every line is comment-prefixed, `enableDomain`
strips ALL leading `#` characters from every line (lodash
`trimStart(line, "#")`), rewrites, and returns true; consequently
`disableDomain` followed by `enableDomain` restores the original content
exactly when no original line begins with `#` (as is the case for a
freshly generated server file). -/
theorem nginx_enable_strips_all (lines lines₀ : List Str) (h0 : lines₀ ≠ []) :
    ((∀ l ∈ lines, startsWithHash l = true) →
      nginxEnableDomain lines = (true, lines.map trimStartHash))
    ∧ ((∀ l ∈ lines₀, startsWithHash l = false) →
        nginxDisableDomain lines₀ = (true, lines₀.map (fun l => '#' :: l))
        ∧ nginxEnableDomain (lines₀.map (fun l => '#' :: l)) = (true, lines₀)) := by
  constructor
  · intro h
    have hall : lines.all startsWithHash = true := List.all_eq_true.mpr h
    unfold nginxEnableDomain
    rw [hall]
    rfl
  · intro h
    obtain ⟨u, us, rfl⟩ : ∃ u us, lines₀ = u :: us := by
      cases lines₀ with
      | nil => exact absurd rfl h0
      | cons u us => exact ⟨u, us, rfl⟩
    have hall : (u :: us).all startsWithHash = false := by
      rw [Bool.eq_false_iff]
      intro hall
      rw [List.all_eq_true] at hall
      have h1 := hall u (by simp)
      have h2 := h u (by simp)
      rw [h1] at h2
      cases h2
    constructor
    · unfold nginxDisableDomain
      rw [hall]
      rfl
    · have hall2 : ((u :: us).map (fun l => '#' :: l)).all startsWithHash = true := by
        rw [List.all_eq_true]
        intro t ht
        obtain ⟨l, _, rfl⟩ := List.mem_map.mp ht
        rfl
      unfold nginxEnableDomain
      rw [hall2]
      simp only [Bool.not_true, Bool.false_eq_true, if_false, List.map_map]
      have hmap : ((u :: us).map (trimStartHash ∘ fun l => '#' :: l)) = u :: us :=
        calc ((u :: us).map (trimStartHash ∘ fun l => '#' :: l))
            = (u :: us).map id :=
              List.map_congr_left (fun l hl => trimStartHash_cons_of_not_hash l (h l hl))
          _ = u :: us := List.map_id _
      rw [hmap]

/-- Witness for C4: a fully commented file and a round trip on a
one-line uncommented file. -/
theorem nginx_enable_strips_all_witness :
    nginxEnableDomain [str "##a"] = (true, [str "##a"].map trimStartHash)
    ∧ nginxDisableDomain [str "x"] = (true, [str "x"].map (fun l => '#' :: l))
    ∧ nginxEnableDomain ([str "x"].map (fun l => '#' :: l)) = (true, [str "x"]) := by
  have h := nginx_enable_strips_all [str "##a"] [str "x"] (by decide)
  have h2 := h.2 (by decide)
  exact ⟨h.1 (by decide), h2.1, h2.2⟩

/-- Counterexample to C4 as stated: on the fully commented file
`["##a"]`, `enableDomain` strips BOTH leading `#` characters (a line
beginning `##` does not keep one `#`); and for the original file
`["#x"]`, `disableDomain` is a no-op (so the "file produced by
disableDomain" is `["#x"]` itself) and `enableDomain` then yields
`["x"]`, not the original content. -/
theorem nginx_enable_strips_all_cex :
    nginxEnableDomain [str "##a"] = (true, [str "a"])
    ∧ (nginxEnableDomain [str "##a"]).2 ≠ [str "#a"]
    ∧ nginxDisableDomain [str "#x"] = (false, [str "#x"])
    ∧ nginxEnableDomain [str "#x"] = (true, [str "x"])
    ∧ [str "x"] ≠ [str "#x"] := by
  decide

/-- C5: the proxy reconciler's update deletes exactly the listed files
(common settings file excluded) whose name matches no current domain's
`file_name`, reports exactly that list as `removed` whenever a rich diff
is returned, and never deletes a file matching some domain's
`file_name`. -/
theorem nginxUpdate_orphan_cleanup (domains : List Domain) (listing : List Str)
    (fileLines : Str → List Str) :
    (∀ f, f ∈ (nginxUpdate domains listing fileLines).2 ↔
      (f ∈ listing ∧ f ≠ COMMON_CONFIG_FILE ∧ ∀ d ∈ domains, d.file_name ≠ f))
    ∧ (match (nginxUpdate domains listing fileLines).1 with
       | NginxUpdateResult.changes _ removed => removed = (nginxUpdate domains listing fileLines).2
       | NginxUpdateResult.flag _ => (nginxUpdate domains listing fileLines).2 = []) := by
  have h2 : (nginxUpdate domains listing fileLines).2 = invalidFiles domains listing := rfl
  constructor
  · intro f
    rw [h2]
    unfold invalidFiles managedFiles
    simp only [List.mem_filter, Bool.not_eq_true', arrayContains_false_iff,
      List.mem_singleton, List.mem_map, not_exists, not_and, and_assoc]
  · have h1 : (nginxUpdate domains listing fileLines).1 =
        (if missingFiles domains listing ≠ [] ∨ invalidFiles domains listing ≠ [] then
          NginxUpdateResult.changes (missingFiles domains listing) (invalidFiles domains listing)
        else
          NginxUpdateResult.flag
            (decide ((statusResults domains fileLines).head? = some true))) := rfl
    by_cases hcond : missingFiles domains listing ≠ [] ∨ invalidFiles domains listing ≠ []
    · rw [h1, if_pos hcond]
      exact h2.symm
    · rw [h1, if_neg hcond]
      push_neg at hcond
      rw [h2]
      exact hcond.2

/-- C6 (amended): when the reconciler returns the boolean shape, the
boolean is the destructured FIRST element of the joined task array: it is
true exactly when the first ACTIVE domain's file was fully commented
(that `enableDomain` flipped it), or — when there is no ACTIVE domain —
when the first INACTIVE domain's file was not fully commented (that
`disableDomain` flipped it); it is false when there are no domains.
Later domains' flips do not influence it. -/
theorem nginxUpdate_flag_first_task (domains : List Domain) (listing : List Str)
    (fileLines : Str → List Str) (b : Bool)
    (h : (nginxUpdate domains listing fileLines).1 = NginxUpdateResult.flag b) :
    (b = true ↔
      (match domains.filter (fun d => decide (d.status = DomainStatus.ACTIVE)) with
       | d :: _ => (fileLines d.file_name).all startsWithHash = true
       | [] =>
         match domains.filter (fun d => !(decide (d.status = DomainStatus.ACTIVE))) with
         | d :: _ => (fileLines d.file_name).all startsWithHash = false
         | [] => False)) := by
  have h1 : (nginxUpdate domains listing fileLines).1 =
      (if missingFiles domains listing ≠ [] ∨ invalidFiles domains listing ≠ [] then
        NginxUpdateResult.changes (missingFiles domains listing) (invalidFiles domains listing)
      else
        NginxUpdateResult.flag
          (decide ((statusResults domains fileLines).head? = some true))) := rfl
  rw [h1] at h
  by_cases hcond : missingFiles domains listing ≠ [] ∨ invalidFiles domains listing ≠ []
  · rw [if_pos hcond] at h
    cases h
  · rw [if_neg hcond] at h
    have hb : b = decide ((statusResults domains fileLines).head? = some true) :=
      (NginxUpdateResult.flag.injEq _ _ ▸ h).symm
    subst hb
    unfold statusResults
    cases hA : domains.filter (fun d => decide (d.status = DomainStatus.ACTIVE)) with
    | cons d tl =>
      simp [enableResult]
    | nil =>
      cases hI : domains.filter (fun d => !(decide (d.status = DomainStatus.ACTIVE))) with
      | cons d tl =>
        simp [disableResult]
      | nil =>
        simp

/-- Witness for C6: one ACTIVE domain whose file is fully commented; the
update returns the boolean shape with value true, matching the first
task's result. -/
theorem nginxUpdate_flag_first_task_witness :
    ((true : Bool) = true ↔ ([str "#x"] : List Str).all startsWithHash = true) := by
  have h := nginxUpdate_flag_first_task
    [Domain.make (str "a") (str "1.1.1.1:1") DomainStatus.ACTIVE]
    [(Domain.make (str "a") (str "1.1.1.1:1") DomainStatus.ACTIVE).file_name]
    (fun _ => [str "#x"]) true (by decide)
  exact h

/-- Counterexample to C6 as stated: two ACTIVE domains, both files
present (no membership change); the first domain's file is already
enabled (no flip) while the second domain's file is fully commented, so
its `enableDomain` flips it — yet the update returns `false`, because the
destructuring `const [statusChanged] = await Promise.all([...])` reads
only the FIRST task's result. -/
theorem nginxUpdate_flag_first_task_cex :
    (nginxUpdate
        [Domain.make (str "a") (str "1.1.1.1:1") DomainStatus.ACTIVE,
         Domain.make (str "b") (str "1.1.1.1:2") DomainStatus.ACTIVE]
        [(Domain.make (str "a") (str "1.1.1.1:1") DomainStatus.ACTIVE).file_name,
         (Domain.make (str "b") (str "1.1.1.1:2") DomainStatus.ACTIVE).file_name]
        (fun n => if n = (Domain.make (str "b") (str "1.1.1.1:2") DomainStatus.ACTIVE).file_name
          then [str "#x"] else [str "x"])).1 = NginxUpdateResult.flag false
    ∧ (Domain.make (str "b") (str "1.1.1.1:2") DomainStatus.ACTIVE).status = DomainStatus.ACTIVE
    ∧ ((fun n => if n = (Domain.make (str "b") (str "1.1.1.1:2") DomainStatus.ACTIVE).file_name
          then [str "#x"] else [str "x"])
        (Domain.make (str "b") (str "1.1.1.1:2") DomainStatus.ACTIVE).file_name).all
        startsWithHash = true := by
  refine ⟨by decide, rfl, by decide⟩

/-- C7: `Config.load` propagates `NotFound` unchanged when the document
is missing (the `tryOrThrow` wrapper rethrows `ApplicationError`s rather
than replacing them with its `IOError`); a failing read or a failing
`JSON.parse` surfaces as the wrapper's `IOError`; and on success the
store's domains are rebuilt one-to-one — `(source, destination, status)`
of each serialized object, with a missing status defaulting to ACTIVE. -/
theorem configLoad_spec (readResult : Except Unit Str) (parseJson : Str → Option ConfigJson) :
    (configLoad false readResult parseJson =
      Except.error (AppError.notFound (str "Missing local config. Please run `init` to create one.")))
    ∧ (∀ u, readResult = Except.error u →
        configLoad true readResult parseJson =
          Except.error (AppError.ioFailure (str "Failed to load the local config file")))
    ∧ (∀ data, readResult = Except.ok data → parseJson data = none →
        configLoad true readResult parseJson =
          Except.error (AppError.ioFailure (str "Failed to load the local config file")))
    ∧ (∀ data j, readResult = Except.ok data → parseJson data = some j →
        configLoad true readResult parseJson =
          Except.ok ⟨j.domains.map Domain.fromObject, j.settings⟩
        ∧ ∀ o ∈ j.domains,
            (Domain.fromObject o).source = o.source
            ∧ (Domain.fromObject o).destination = o.destination
            ∧ (Domain.fromObject o).status = o.status.getD DomainStatus.ACTIVE) := by
  refine ⟨rfl, ?_, ?_, ?_⟩
  · intro u hu
    rw [hu]
    rfl
  · intro data hd hp
    unfold configLoad configLoadBody
    rw [hd]
    simp [hp, tryOrThrow]
  · intro data j hd hp
    constructor
    · unfold configLoad configLoadBody
      rw [hd]
      simp [hp, tryOrThrow, configFromJSON]
    · intro o _
      exact ⟨rfl, rfl, rfl⟩

/-- Witness for C7: concrete instantiations of each branch of the load
contract. -/
theorem configLoad_spec_witness :
    (configLoad true (Except.error ()) (fun _ => none) =
      Except.error (AppError.ioFailure (str "Failed to load the local config file")))
    ∧ (configLoad true (Except.ok (str "bad")) (fun _ => none) =
      Except.error (AppError.ioFailure (str "Failed to load the local config file")))
    ∧ (configLoad true (Except.ok (str "doc"))
        (fun _ => some ⟨[⟨str "s", str "d", none⟩], str "settings"⟩) =
      Except.ok ⟨[Domain.make (str "s") (str "d") DomainStatus.ACTIVE], str "settings"⟩) := by
  refine ⟨?_, ?_, ?_⟩
  · exact (configLoad_spec (Except.error ()) (fun _ => none)).2.1 () rfl
  · exact (configLoad_spec (Except.ok (str "bad")) (fun _ => none)).2.2.1 (str "bad") rfl rfl
  · exact ((configLoad_spec (Except.ok (str "doc"))
      (fun _ => some ⟨[⟨str "s", str "d", none⟩], str "settings"⟩)).2.2.2
        (str "doc") ⟨[⟨str "s", str "d", none⟩], str "settings"⟩ rfl rfl).1

/-- C8: `addDomain` returns false and leaves the directory untouched when
the domain's file already exists; otherwise it writes the generated
server block — which contains `listen 80;`, `server_name <source>;`,
`proxy_pass http://<destination>;` and the include of the common settings
file — and returns true. -/
theorem nginxAddDomain_spec (d : Domain) (dir : List (Str × Str)) :
    ((fsLookup dir d.file_name).isSome = true → nginxAddDomain d dir = (false, dir))
    ∧ (fsLookup dir d.file_name = none →
        (nginxAddDomain d dir).1 = true
        ∧ fsLookup (nginxAddDomain d dir).2 d.file_name = some (domainServerFileContent d)
        ∧ (∃ a b, domainServerFileContent d = a ++ (str "listen 80;" ++ b))
        ∧ (∃ a b, domainServerFileContent d =
            a ++ ((str "server_name " ++ (d.source ++ str ";")) ++ b))
        ∧ (∃ a b, domainServerFileContent d =
            a ++ ((str "proxy_pass http://" ++ (d.destination ++ str ";")) ++ b))
        ∧ (∃ a b, domainServerFileContent d =
            a ++ (str "include local-domains/local-domains-common.conf;" ++ b))) := by
  constructor
  · intro hs
    obtain ⟨c, hc⟩ := Option.isSome_iff_exists.mp hs
    unfold nginxAddDomain
    rw [hc]
  · intro hn
    refine ⟨?_, ?_, ?_, ?_, ?_, ?_⟩
    · unfold nginxAddDomain
      rw [hn]
    · unfold nginxAddDomain
      rw [hn]
      show fsLookup ((d.file_name, domainServerFileContent d) :: dir) d.file_name = _
      unfold fsLookup
      rw [if_pos rfl]
    · refine ⟨str "server \x7b\n  ",
        str "\n  server_name " ++ (d.source ++
          (str ";\n  location / \x7b\n    proxy_pass http://" ++ (d.destination ++
            str ";\n    include local-domains/local-domains-common.conf;\n  \x7d\n\x7d"))), ?_⟩
      have hA : str "server \x7b\n  listen 80;\n  server_name " =
          str "server \x7b\n  " ++ (str "listen 80;" ++ str "\n  server_name ") := by decide
      unfold domainServerFileContent
      rw [hA]
      simp [List.append_assoc]
    · refine ⟨str "server \x7b\n  listen 80;\n  ",
        str "\n  location / \x7b\n    proxy_pass http://" ++ (d.destination ++
          str ";\n    include local-domains/local-domains-common.conf;\n  \x7d\n\x7d"), ?_⟩
      have hA : str "server \x7b\n  listen 80;\n  server_name " =
          str "server \x7b\n  listen 80;\n  " ++ str "server_name " := by decide
      have hB : str ";\n  location / \x7b\n    proxy_pass http://" =
          str ";" ++ str "\n  location / \x7b\n    proxy_pass http://" := by decide
      unfold domainServerFileContent
      rw [hA, hB]
      simp [List.append_assoc]
    · refine ⟨str "server \x7b\n  listen 80;\n  server_name " ++ (d.source ++
          str ";\n  location / \x7b\n    "),
        str "\n    include local-domains/local-domains-common.conf;\n  \x7d\n\x7d", ?_⟩
      have hB : str ";\n  location / \x7b\n    proxy_pass http://" =
          str ";\n  location / \x7b\n    " ++ str "proxy_pass http://" := by decide
      have hC : str ";\n    include local-domains/local-domains-common.conf;\n  \x7d\n\x7d" =
          str ";" ++ str "\n    include local-domains/local-domains-common.conf;\n  \x7d\n\x7d" := by
        decide
      unfold domainServerFileContent
      rw [hB, hC]
      simp [List.append_assoc]
    · refine ⟨str "server \x7b\n  listen 80;\n  server_name " ++ (d.source ++
          (str ";\n  location / \x7b\n    proxy_pass http://" ++ (d.destination ++ str ";\n    "))),
        str "\n  \x7d\n\x7d", ?_⟩
      have hC : str ";\n    include local-domains/local-domains-common.conf;\n  \x7d\n\x7d" =
          str ";\n    " ++ (str "include local-domains/local-domains-common.conf;" ++
            str "\n  \x7d\n\x7d") := by decide
      unfold domainServerFileContent
      rw [hC]
      simp [List.append_assoc]

/-- Witness for C8: a fresh directory gets the generated file; a
directory already containing the file is left untouched. -/
theorem nginxAddDomain_spec_witness :
    nginxAddDomain (Domain.make (str "a") (str "1.2.3.4:80") DomainStatus.ACTIVE)
      [((Domain.make (str "a") (str "1.2.3.4:80") DomainStatus.ACTIVE).file_name, str "old")] =
      (false, [((Domain.make (str "a") (str "1.2.3.4:80") DomainStatus.ACTIVE).file_name,
        str "old")])
    ∧ (nginxAddDomain (Domain.make (str "a") (str "1.2.3.4:80") DomainStatus.ACTIVE) []).1 = true
    ∧ fsLookup (nginxAddDomain (Domain.make (str "a") (str "1.2.3.4:80") DomainStatus.ACTIVE) []).2
        (Domain.make (str "a") (str "1.2.3.4:80") DomainStatus.ACTIVE).file_name =
        some (domainServerFileContent (Domain.make (str "a") (str "1.2.3.4:80")
          DomainStatus.ACTIVE)) := by
  refine ⟨?_, ?_, ?_⟩
  · exact (nginxAddDomain_spec (Domain.make (str "a") (str "1.2.3.4:80") DomainStatus.ACTIVE)
      [((Domain.make (str "a") (str "1.2.3.4:80") DomainStatus.ACTIVE).file_name,
        str "old")]).1 (by decide)
  · exact ((nginxAddDomain_spec (Domain.make (str "a") (str "1.2.3.4:80") DomainStatus.ACTIVE)
      []).2 rfl).1
  · exact ((nginxAddDomain_spec (Domain.make (str "a") (str "1.2.3.4:80") DomainStatus.ACTIVE)
      []).2 rfl).2.1

/-- C9 (amended): the `Domain` constructor performs no validation at all;
it succeeds for every pair of strings (empty included), stores the fields
as given, and the status defaults to ACTIVE when omitted. -/
theorem domain_make_no_validation (s d : Str) (st : DomainStatus) :
    (Domain.make s d st).source = s
    ∧ (Domain.make s d st).destination = d
    ∧ (Domain.make s d st).status = st
    ∧ (Domain.makeDefault s d).source = s
    ∧ (Domain.makeDefault s d).destination = d
    ∧ (Domain.makeDefault s d).status = DomainStatus.ACTIVE :=
  ⟨rfl, rfl, rfl, rfl, rfl, rfl⟩

/-- Counterexample to C9 as stated: construction with an empty source (or
an empty destination) is NOT rejected — the constructor body only
computes `file_name` and never validates, so it produces a `Domain`
carrying the empty string. -/
theorem domain_make_no_validation_cex :
    (Domain.makeDefault [] (str "1.2.3.4:80")).source = []
    ∧ (Domain.makeDefault [] (str "1.2.3.4:80")).status = DomainStatus.ACTIVE
    ∧ (Domain.makeDefault [] (str "1.2.3.4:80")).file_name = str "-1.2.3.4$80.conf"
    ∧ (Domain.makeDefault (str "x") []).destination = []
    ∧ (Domain.makeDefault (str "x") []).status = DomainStatus.ACTIVE := by
  refine ⟨rfl, rfl, by decide, rfl, rfl⟩

/-- C10 (amended): a line is recognized as a managed entry only if the
address starts at the very first character, address and hostname are
nonempty runs free of whitespace and `#` separated by exactly one space,
and the comment capture — starting after a `#` reachable from the
hostname by whitespace only, then after the maximal whitespace run, and
bounded by the next line terminator because `.` matches no terminator —
is exactly the signature `vidos`.  Lines with leading whitespace, a tab
or double space between the fields, extra text on the same
terminator-free stretch, or trailing whitespace after the signature are
foreign; but text separated from the signature by a CR (so beyond the
capture) does NOT make the line foreign: every managed line of a CRLF
hosts file ends in `\r` and still parses as managed. -/
theorem hostFromLine_managed_shape :
    (∀ l e, hostFromLine l = some e →
      e.ip ≠ [] ∧ e.name ≠ []
      ∧ e.ip.all tokenChar = true ∧ e.name.all tokenChar = true
      ∧ ∃ rest r5, l = e.ip ++ ' ' :: (e.name ++ rest)
          ∧ rest.dropWhile jsSpace = '#' :: r5
          ∧ (r5.dropWhile jsSpace).takeWhile (fun c => !(lineTerminator c)) = str "vidos")
    ∧ hostFromLine (str " 1.2.3.4 foo # vidos") = none
    ∧ hostFromLine (str "1.2.3.4\tfoo # vidos") = none
    ∧ hostFromLine (str "1.2.3.4  foo # vidos") = none
    ∧ hostFromLine (str "1.2.3.4 foo # vidos extra") = none
    ∧ hostFromLine (str "1.2.3.4 foo # vidos ") = none
    ∧ hostFromLine (str "1.2.3.4 foo # vidos\r") = some ⟨str "1.2.3.4", str "foo"⟩ := by
  refine ⟨?_, by decide, by decide, by decide, by decide, by decide, by decide⟩
  intro l e h
  unfold hostFromLine at h
  split at h
  next hdw => cases h
  next c r2 hdw =>
    split at h
    next hc =>
      split at h
      next ha => cases h
      next ha =>
        split at h
        next hb => cases h
        next hb =>
          split at h
          next hdw2 => cases h
          next c2 r5 hdw2 =>
            split at h
            next hc2 =>
              split at h
              next hv =>
                injection h with he
                subst he
                subst hc
                subst hc2
                refine ⟨ha, hb, all_takeWhile tokenChar l, all_takeWhile tokenChar r2,
                  r2.dropWhile tokenChar, r5, ?_, hdw2, hv⟩
                calc l = l.takeWhile tokenChar ++ l.dropWhile tokenChar :=
                      (List.takeWhile_append_dropWhile tokenChar l).symm
                  _ = l.takeWhile tokenChar ++ ' ' :: r2 := by rw [hdw]
                  _ = l.takeWhile tokenChar ++ ' ' ::
                      (r2.takeWhile tokenChar ++ r2.dropWhile tokenChar) := by
                      rw [List.takeWhile_append_dropWhile]
              next hv => cases h
            next hc2 => cases h
    next hc => cases h

/-- Witness for C10: the canonical managed line decomposes as the
theorem describes. -/
theorem hostFromLine_managed_shape_witness :
    (⟨str "1.2.3.4", str "foo"⟩ : HostEntry).ip ≠ []
    ∧ (⟨str "1.2.3.4", str "foo"⟩ : HostEntry).name ≠ []
    ∧ (⟨str "1.2.3.4", str "foo"⟩ : HostEntry).ip.all tokenChar = true
    ∧ (⟨str "1.2.3.4", str "foo"⟩ : HostEntry).name.all tokenChar = true
    ∧ ∃ rest r5, str "1.2.3.4 foo # vidos" =
          (⟨str "1.2.3.4", str "foo"⟩ : HostEntry).ip ++ ' ' ::
            ((⟨str "1.2.3.4", str "foo"⟩ : HostEntry).name ++ rest)
        ∧ rest.dropWhile jsSpace = '#' :: r5
        ∧ (r5.dropWhile jsSpace).takeWhile (fun c => !(lineTerminator c)) = str "vidos" :=
  hostFromLine_managed_shape.1 (str "1.2.3.4 foo # vidos")
    ⟨str "1.2.3.4", str "foo"⟩ (by decide)

/-- Counterexample to C10 as stated: the comment capture `(.+)` stops at
a line terminator, so a line carrying the signature followed by a CR and
then arbitrary extra text is parsed as a MANAGED entry (the capture is
exactly `vidos`), not null — contradicting "any extra text in the
comment returns null"; in particular every managed line of a CRLF hosts
file is managed despite its trailing `\r`. -/
theorem hostFromLine_managed_shape_cex :
    hostFromLine (str "1.2.3.4 foo # vidos\rextra") = some ⟨str "1.2.3.4", str "foo"⟩
    ∧ ¬ (hostFromLine (str "1.2.3.4 foo # vidos\rextra") = none)
    ∧ hostFromLine (str "1.2.3.4 foo # vidos\r") = some ⟨str "1.2.3.4", str "foo"⟩ := by
  decide
